import Mathlib

/-!
Verification of the RAG document-retrieval pipeline of a browser chat client:
text chunking, cosine-similarity ranking, ingestion progress reporting, and the
IndexedDB-backed document store with cascade delete.

Text is modelled as `List Char`, JavaScript numbers used for similarity scores
and progress fractions as `ℚ`, and the opaque external capabilities
(the embedding backend and `Math.sqrt`) as function parameters.  The chunking
loop, whose termination is one of the properties under study, is given an
explicit fuel parameter: a `none` result means the loop failed to finish within
the given fuel, for every fuel.
-/

namespace RAG

/-- Characters per chunk (source: `CHUNK_SIZE = 512`). -/
def CHUNK_SIZE : Nat := 512

/-- Overlap between chunks (source: `CHUNK_OVERLAP = 50`). -/
def CHUNK_OVERLAP : Nat := 50

/-- Result element of `chunkText` (source: `{ content, startIndex, endIndex }`). -/
structure TextChunk where
  content : List Char
  startIndex : Nat
  endIndex : Nat
deriving Repr, DecidableEq

/-- JavaScript `text.lastIndexOf(c, pos)` for a single-character needle: the greatest
index `i ≤ pos` with `s[i] = c`, as `some i`, else `none` (JS returns `-1`). -/
def lastIndexOfAt (s : List Char) (c : Char) (pos : Nat) : Option Nat :=
  ((List.range (pos + 1)).filter (fun i => s[i]? == some c)).getLast?

/-- JavaScript result `-1` for a missing index, otherwise the index itself. -/
def jsIdx : Option Nat → Int
  | some i => (i : Int)
  | none => -1

/-- JavaScript `text.slice(a, b)`: the characters in positions `[a, b)`. -/
def sliceList (s : List Char) (a b : Nat) : List Char :=
  (s.take b).drop a

/-- JavaScript `String.prototype.trim`: strip whitespace from both ends. -/
def jsTrim (s : List Char) : List Char :=
  ((s.dropWhile Char.isWhitespace).reverse.dropWhile Char.isWhitespace).reverse

/-- One window-end computation of the chunking loop (source lines 38-50):
`end = min(start + CHUNK_SIZE, length)`, then if not at the end of the text,
prefer the last sentence terminator after the window midpoint
(`sentenceEnd > start + CHUNK_SIZE * 0.5`, with `CHUNK_SIZE * 0.5 = 256 = CHUNK_SIZE / 2`),
else the last space after the midpoint, else the hard window edge. -/
def chunkEnd (text : List Char) (start : Nat) : Nat :=
  let e := min (start + CHUNK_SIZE) text.length
  if e < text.length then
    let sentenceEnd := jsIdx (lastIndexOfAt text '.' e)
    let wordEnd := jsIdx (lastIndexOfAt text ' ' e)
    if ((start + CHUNK_SIZE / 2 : Nat) : Int) < sentenceEnd then (sentenceEnd + 1).toNat
    else if ((start + CHUNK_SIZE / 2 : Nat) : Int) < wordEnd then wordEnd.toNat
    else e
  else e

/-- One iteration's chunk emission (source lines 52-59): trim the window's slice and
append it to the accumulator when the trimmed content is nonempty. -/
def emitChunk (text : List Char) (start : Nat) (acc : List TextChunk) : List TextChunk :=
  if 0 < (jsTrim (sliceList text start (chunkEnd text start))).length then
    acc ++ [⟨jsTrim (sliceList text start (chunkEnd text start)), start, chunkEnd text start⟩]
  else acc

/-- The `while (start < text.length)` loop of `chunkText` (source lines 37-64),
with explicit fuel.  Each iteration computes the window end, trims the slice,
emits it when nonempty, then sets `start = end - CHUNK_OVERLAP` and breaks when
`start >= text.length`.  `none` means the fuel ran out before the loop finished. -/
def chunkLoop (text : List Char) : Nat → Nat → List TextChunk → Option (List TextChunk)
  | 0, _, _ => none
  | fuel + 1, start, acc =>
    if start < text.length then
      if text.length ≤ chunkEnd text start - CHUNK_OVERLAP then
        some (emitChunk text start acc)
      else chunkLoop text fuel (chunkEnd text start - CHUNK_OVERLAP) (emitChunk text start acc)
    else some acc

/-- Source `chunkText` (lines 28-67): a text no longer than `CHUNK_SIZE` is returned
as a single chunk spanning the whole text; otherwise the overlapping-window loop runs. -/
def chunkText (fuel : Nat) (text : List Char) : Option (List TextChunk) :=
  if text.length ≤ CHUNK_SIZE then some [⟨text, 0, text.length⟩]
  else chunkLoop text fuel 0 []

theorem lastIndexOfAt_lt_length {s : List Char} {c : Char} {pos i : Nat}
    (h : lastIndexOfAt s c pos = some i) : i < s.length ∧ i ≤ pos := by
  unfold lastIndexOfAt at h
  have hmem : i ∈ (List.range (pos + 1)).filter (fun i => s[i]? == some c) := by
    obtain ⟨hne, heq⟩ := List.mem_getLast?_eq_getLast (x := i) (by rw [h]; rfl)
    rw [heq]
    exact List.getLast_mem hne
  rw [List.mem_filter, List.mem_range] at hmem
  obtain ⟨hr, hf⟩ := hmem
  constructor
  · by_contra hge
    rw [List.getElem?_eq_none (by omega)] at hf
    simp at hf
  · omega

theorem chunkEnd_le_length (text : List Char) (start : Nat) :
    chunkEnd text start ≤ text.length := by
  unfold chunkEnd
  simp only
  split
  · rename_i hlt
    split
    · rename_i hs
      rcases hse : lastIndexOfAt text '.' (min (start + CHUNK_SIZE) text.length) with _ | i
      · rw [hse] at hs; simp [jsIdx] at hs; omega
      · rw [hse] at hs
        have := lastIndexOfAt_lt_length hse
        simp [jsIdx] at hs ⊢
        omega
    · split
      · rename_i hs hw
        rcases hwe : lastIndexOfAt text ' ' (min (start + CHUNK_SIZE) text.length) with _ | i
        · rw [hwe] at hw; simp [jsIdx] at hw; omega
        · rw [hwe] at hw
          have := lastIndexOfAt_lt_length hwe
          simp [jsIdx] at hw ⊢
          omega
      · omega
  · omega

theorem chunkLoop_eq_none (text : List Char) :
    ∀ (fuel start : Nat) (acc : List TextChunk), start < text.length →
      chunkLoop text fuel start acc = none := by
  intro fuel
  induction fuel with
  | zero => intro start acc _; rfl
  | succ n ih =>
    intro start acc hstart
    have he := chunkEnd_le_length text start
    have hov : CHUNK_OVERLAP = 50 := rfl
    unfold chunkLoop
    rw [if_pos hstart, if_neg (by omega)]
    exact ih _ _ (by omega)

theorem chunkText_eq_none_of_long (fuel : Nat) (text : List Char)
    (h : CHUNK_SIZE < text.length) : chunkText fuel text = none := by
  unfold chunkText
  rw [if_neg (by omega)]
  exact chunkLoop_eq_none text fuel 0 [] (by omega)

/-- C1: the chunker does not terminate on every input.  For a text of 513 characters
(one more than the maximum chunk size) the scan loop never finishes: for every
fuel bound the loop is still running, because once the window end reaches the text
length the advanced start `end - CHUNK_OVERLAP` stays at `length - 50` and the exit
conditions `start >= text.length` are never met.  The claimed minimum one-character
advance per iteration does not hold in the code. -/
theorem chunkText_nonterminating_C1 (fuel : Nat) :
    chunkText fuel (List.replicate 513 'a') = none :=
  chunkText_eq_none_of_long fuel _ (by rw [List.length_replicate]; decide)

theorem chunkText_of_le (fuel : Nat) (text : List Char)
    (h : text.length ≤ CHUNK_SIZE) :
    chunkText fuel text = some [⟨text, 0, text.length⟩] := by
  unfold chunkText
  rw [if_pos h]

/-- C4: a text of length at most `CHUNK_SIZE = 512` produces exactly one chunk whose
content is the full text, with `startIndex = 0` and `endIndex` the text's length. -/
theorem chunkText_short_C4 (fuel : Nat) (text : List Char)
    (h : text.length ≤ CHUNK_SIZE) :
    chunkText fuel text = some [⟨text, 0, text.length⟩] :=
  chunkText_of_le fuel text h

/-- Witness for C4 at the concrete two-character text `hi`. -/
theorem chunkText_short_C4_witness :
    (['h', 'i'] : List Char).length ≤ CHUNK_SIZE ∧
      chunkText 0 ['h', 'i'] = some [⟨['h', 'i'], 0, 2⟩] :=
  ⟨by decide, chunkText_short_C4 0 ['h', 'i'] (by decide)⟩

/-- C3 counterexample: on the empty text, `chunkText` returns the single chunk
`{ content := "", startIndex := 0, endIndex := 0 }`, whose `endIndex` is not
strictly greater than its `startIndex`, refuting the claim for every input text. -/
theorem chunkText_empty_cex_C3 :
    ∃ cs, chunkText 0 [] = some cs ∧ ¬ (∀ c ∈ cs, c.startIndex < c.endIndex) :=
  ⟨[⟨[], 0, 0⟩], by decide, by decide⟩

/-- C3 (amended): for every nonempty input text, any chunk sequence that `chunkText`
returns has strictly increasing `startIndex` values, and `endIndex > startIndex`
holds for every produced chunk. -/
theorem chunkText_monotone_C3 (fuel : Nat) (text : List Char) (cs : List TextChunk)
    (h : chunkText fuel text = some cs) (hne : text ≠ []) :
    cs.Pairwise (fun c₁ c₂ => c₁.startIndex < c₂.startIndex) ∧
      ∀ c ∈ cs, c.startIndex < c.endIndex := by
  by_cases hlen : text.length ≤ CHUNK_SIZE
  · rw [chunkText_of_le fuel text hlen] at h
    obtain rfl : cs = [⟨text, 0, text.length⟩] := by injection h with h; exact h.symm
    refine ⟨List.pairwise_singleton _ _, ?_⟩
    intro c hc
    rw [List.mem_singleton] at hc
    subst hc
    have : text.length ≠ 0 := fun h0 => hne (List.length_eq_zero.mp h0)
    simpa using Nat.pos_of_ne_zero this
  · rw [chunkText_eq_none_of_long fuel text (by omega)] at h
    exact absurd h (by simp)

/-- Witness for C3 (amended) at the concrete one-character text `a`. -/
theorem chunkText_monotone_C3_witness :
    chunkText 1 ['a'] = some [⟨['a'], 0, 1⟩] ∧ (['a'] : List Char) ≠ [] ∧
      ([(⟨['a'], 0, 1⟩ : TextChunk)].Pairwise (fun c₁ c₂ => c₁.startIndex < c₂.startIndex) ∧
        ∀ c ∈ [(⟨['a'], 0, 1⟩ : TextChunk)], c.startIndex < c.endIndex) :=
  ⟨by decide, by decide, chunkText_monotone_C3 1 ['a'] _ (by decide) (by decide)⟩

/-! ### Data model (source: the `Document` and `DocumentChunk` interfaces of `rag-db`) -/

/-- Persistent document record. -/
structure Document where
  id : String
  name : String
  type : String
  size : Nat
  content : List Char
  uploadDate : String
  chunkCount : Nat
deriving Repr, DecidableEq

/-- Persistent chunk record.  `processDocument` builds these without the optional
content-type label, so `type` is an `Option`. -/
structure DocumentChunk where
  id : String
  documentId : String
  content : List Char
  embedding : List ℚ
  type : Option String
  startIndex : Nat
  endIndex : Nat
deriving Repr, DecidableEq

/-! ### Similarity engine (source: `cosineSimilarity`, `searchSimilarChunks`)

`Math.sqrt` is an opaque numeric primitive and the embedding backend an opaque
inference capability; both are parameters of the definitions below. -/

/-- Error raised by `cosineSimilarity` on vectors of unequal length
(source: `throw new Error('Vectors must have the same length')`, the spec's
`DimensionMismatch`). -/
inductive VecError where
  | DimensionMismatch
deriving Repr, DecidableEq

/-- Source `cosineSimilarity` (lines 95-111): fail on unequal lengths, otherwise one
pass accumulating the dot product and the two squared norms, returning
`dot / (sqrt normA * sqrt normB)`. -/
def cosineSimilarity (sqrt : ℚ → ℚ) (a b : List ℚ) : Except VecError ℚ :=
  if a.length ≠ b.length then .error .DimensionMismatch
  else
    let sums := (a.zip b).foldl
      (fun s p => (s.1 + p.1 * p.2, s.2.1 + p.1 * p.1, s.2.2 + p.2 * p.2))
      ((0 : ℚ), (0 : ℚ), (0 : ℚ))
    .ok (sums.1 / (sqrt sums.2.1 * sqrt sums.2.2))

/-- C5: comparing vectors of unequal length always fails with `DimensionMismatch` and
never returns a number, while equal-length inputs never raise that error and always
produce a numeric result. -/
theorem cosineSimilarity_dimension_C5 (sqrt : ℚ → ℚ) (a b : List ℚ) :
    (cosineSimilarity sqrt a b = .error .DimensionMismatch ↔ a.length ≠ b.length) ∧
      ((∃ q, cosineSimilarity sqrt a b = .ok q) ↔ a.length = b.length) := by
  unfold cosineSimilarity
  by_cases h : a.length = b.length
  · rw [if_neg (by simp [h])]
    simp [h]
  · rw [if_pos h]
    simp [h]

/-- The `chunks.map(chunk => ({ chunk, similarity: cosineSimilarity(...) }))` step of
`searchSimilarChunks` (source lines 162-165): a thrown dimension mismatch on any
chunk propagates out of the whole map. -/
def mapSimilarities (sqrt : ℚ → ℚ) (queryEmbedding : List ℚ) :
    List DocumentChunk → Except VecError (List (DocumentChunk × ℚ))
  | [] => .ok []
  | c :: cs =>
    match cosineSimilarity sqrt queryEmbedding c.embedding with
    | .error e => .error e
    | .ok s =>
      match mapSimilarities sqrt queryEmbedding cs with
      | .error e => .error e
      | .ok rest => .ok ((c, s) :: rest)

/-- The sort comparator `(a, b) => b.similarity - a.similarity` (source line 169):
`a` precedes `b` exactly when `a`'s similarity is at least `b`'s, and the JS sort is
stable, so ties keep their original order. -/
def descBySim (x y : DocumentChunk × ℚ) : Bool :=
  decide (y.2 ≤ x.2)

/-- Source `searchSimilarChunks` (lines 149-171): return `[]` on an empty candidate
list without embedding the query, otherwise embed the query, score every chunk,
sort descending by similarity (stable) and keep the first `topK`. -/
def searchSimilarChunks (embed : List Char → List ℚ) (sqrt : ℚ → ℚ)
    (query : List Char) (chunks : List DocumentChunk) (topK : Nat) :
    Except VecError (List (DocumentChunk × ℚ)) :=
  if chunks.length = 0 then .ok []
  else
    match mapSimilarities sqrt (embed query) chunks with
    | .error e => .error e
    | .ok similarities => .ok ((similarities.mergeSort descBySim).take topK)

/-- The RAG retrieval step of `chat.tsx onSubmit` (lines 89-92): run
`searchSimilarChunks` with `ragMaxResults`, then keep the results whose similarity
is at least `ragSimilarityThreshold`. -/
def ragFilteredResults (embed : List Char → List ℚ) (sqrt : ℚ → ℚ)
    (input : List Char) (chunks : List DocumentChunk) (ragMaxResults : Nat)
    (ragSimilarityThreshold : ℚ) : Except VecError (List (DocumentChunk × ℚ)) :=
  match searchSimilarChunks embed sqrt input chunks ragMaxResults with
  | .error e => .error e
  | .ok results => .ok (results.filter (fun r => decide (ragSimilarityThreshold ≤ r.2)))

/-- Modelled from the spec (§4.5): `query(queryText, allChunks, k, similarityThreshold)`
embeds the query, ranks all candidate chunks by cosine similarity descending
(stable, §4.3), filters to those at or above the threshold, then truncates to the
top `k`; on an empty candidate list it returns the empty sequence. -/
def querySpec (embed : List Char → List ℚ) (sqrt : ℚ → ℚ)
    (queryText : List Char) (allChunks : List DocumentChunk) (k : Nat)
    (similarityThreshold : ℚ) : Except VecError (List (DocumentChunk × ℚ)) :=
  if allChunks.length = 0 then .ok []
  else
    match mapSimilarities sqrt (embed queryText) allChunks with
    | .error e => .error e
    | .ok similarities =>
      .ok (((similarities.mergeSort descBySim).filter
        (fun r => decide (similarityThreshold ≤ r.2))).take k)

theorem descBySim_trans (a b c : DocumentChunk × ℚ)
    (hab : descBySim a b) (hbc : descBySim b c) : descBySim a c := by
  simp only [descBySim, decide_eq_true_eq] at *
  exact le_trans hbc hab

theorem descBySim_total (a b : DocumentChunk × ℚ) : descBySim a b || descBySim b a := by
  simp only [descBySim, Bool.or_eq_true, decide_eq_true_eq]
  exact le_total b.2 a.2

/-- On a list sorted descending by similarity, keeping the entries at or above a
threshold is a prefix operation. -/
theorem filter_eq_takeWhile_of_sorted (t : ℚ) :
    ∀ (l : List (DocumentChunk × ℚ)), l.Pairwise (fun x y => y.2 ≤ x.2) →
      l.filter (fun r => decide (t ≤ r.2)) = l.takeWhile (fun r => decide (t ≤ r.2))
  | [], _ => rfl
  | x :: xs, h => by
    rw [List.pairwise_cons] at h
    by_cases hx : t ≤ x.2
    · rw [List.filter_cons_of_pos (by simpa using hx),
        List.takeWhile_cons_of_pos (by simpa using hx),
        filter_eq_takeWhile_of_sorted t xs h.2]
    · rw [List.filter_cons_of_neg (by simpa using hx),
        List.takeWhile_cons_of_neg (by simpa using hx)]
      rw [List.filter_eq_nil_iff.mpr]
      intro y hy
      simp only [decide_eq_true_eq]
      intro ht
      exact hx (le_trans ht (h.1 y hy))

theorem mergeSort_descBySim_sorted (l : List (DocumentChunk × ℚ)) :
    (l.mergeSort descBySim).Pairwise (fun x y => y.2 ≤ x.2) := by
  have h := List.sorted_mergeSort descBySim_trans descBySim_total l
  exact h.imp (by simp only [descBySim, decide_eq_true_eq]; exact fun h => h)

/-- C2: the deployed query path (rank all candidates, truncate to the top
`ragMaxResults`, then filter by the similarity threshold) returns exactly the first
`k` elements of the threshold-filtered descending similarity ranking, i.e. it
coincides with the spec's filter-then-truncate `query` for every query, candidate
set, `k` and threshold: on a descending ranking the threshold filter selects a
prefix, so filtering and truncation commute. -/
theorem ragFilteredResults_eq_querySpec_C2 (embed : List Char → List ℚ)
    (sqrt : ℚ → ℚ) (input : List Char) (chunks : List DocumentChunk)
    (k : Nat) (threshold : ℚ) :
    ragFilteredResults embed sqrt input chunks k threshold =
      querySpec embed sqrt input chunks k threshold := by
  unfold ragFilteredResults querySpec searchSimilarChunks
  by_cases h0 : chunks.length = 0
  · rw [if_pos h0, if_pos h0]
    rfl
  · rw [if_neg h0, if_neg h0]
    rcases hm : mapSimilarities sqrt (embed input) chunks with e | sims
    · rfl
    · simp only
      congr 1
      have hs : (sims.mergeSort descBySim).Pairwise (fun x y => y.2 ≤ x.2) :=
        mergeSort_descBySim_sorted sims
    -- filter on the truncated ranking = truncated filter of the full ranking
      have hst : ((sims.mergeSort descBySim).take k).Pairwise (fun x y => y.2 ≤ x.2) :=
        hs.sublist (List.take_sublist k _)
      rw [filter_eq_takeWhile_of_sorted threshold _ hst,
        ← List.take_takeWhile,
        ← filter_eq_takeWhile_of_sorted threshold _ hs]

theorem mapSimilarities_length (sqrt : ℚ → ℚ) (qe : List ℚ) :
    ∀ (chunks : List DocumentChunk) (pairs : List (DocumentChunk × ℚ)),
      mapSimilarities sqrt qe chunks = .ok pairs → pairs.length = chunks.length
  | [], pairs, h => by
    simp only [mapSimilarities] at h
    injection h with h
    rw [← h]
    rfl
  | c :: cs, pairs, h => by
    unfold mapSimilarities at h
    rcases hcos : cosineSimilarity sqrt qe c.embedding with e | s
    · rw [hcos] at h
      exact absurd h (by simp)
    · rw [hcos] at h
      rcases hrest : mapSimilarities sqrt qe cs with e | rest
      · rw [hrest] at h
        exact absurd h (by simp)
      · rw [hrest] at h
        injection h with h
        rw [← h]
        simp [mapSimilarities_length sqrt qe cs rest hrest]

/-- Evaluation of `searchSimilarChunks` when every similarity computation succeeds. -/
theorem searchSimilarChunks_eq (embed : List Char → List ℚ) (sqrt : ℚ → ℚ)
    (q : List Char) (chunks : List DocumentChunk) (k : Nat)
    (pairs : List (DocumentChunk × ℚ))
    (h : mapSimilarities sqrt (embed q) chunks = .ok pairs) :
    searchSimilarChunks embed sqrt q chunks k = .ok ((pairs.mergeSort descBySim).take k) := by
  unfold searchSimilarChunks
  by_cases h0 : chunks.length = 0
  · rw [if_pos h0]
    obtain rfl : chunks = [] := List.length_eq_zero.mp h0
    simp only [mapSimilarities] at h
    injection h with h
    rw [← h]
    simp
  · rw [if_neg h0, h]

/-- C6: when every similarity computation succeeds, `search` returns the candidates
ordered by descending similarity; and when `k` is at least the candidate count, the
result is a permutation of all the scored candidates (every candidate appears) in
which any two candidates with equal similarity keep their original relative order
(stable sort). -/
theorem searchSimilarChunks_ranking_C6 (embed : List Char → List ℚ) (sqrt : ℚ → ℚ)
    (q : List Char) (chunks : List DocumentChunk) (k : Nat)
    (pairs : List (DocumentChunk × ℚ))
    (h : mapSimilarities sqrt (embed q) chunks = .ok pairs) :
    ∃ res, searchSimilarChunks embed sqrt q chunks k = .ok res ∧
      res.Pairwise (fun x y => y.2 ≤ x.2) ∧
      (chunks.length ≤ k →
        res.Perm pairs ∧
        ∀ a b : DocumentChunk × ℚ, List.Sublist [a, b] pairs → a.2 = b.2 →
          List.Sublist [a, b] res) := by
  refine ⟨(pairs.mergeSort descBySim).take k,
    searchSimilarChunks_eq embed sqrt q chunks k pairs h, ?_, ?_⟩
  · exact (mergeSort_descBySim_sorted pairs).sublist (List.take_sublist k _)
  · intro hk
    have hlen : (pairs.mergeSort descBySim).length ≤ k := by
      rw [List.length_mergeSort, mapSimilarities_length sqrt (embed q) chunks pairs h]
      exact hk
    rw [List.take_of_length_le hlen]
    refine ⟨List.mergeSort_perm pairs descBySim, ?_⟩
    intro a b hab heq
    exact List.pair_sublist_mergeSort descBySim_trans descBySim_total
      (by simp [descBySim, heq]) hab

/-- Concrete chunk records used in closed witnesses. -/
def wChunk1 : DocumentChunk :=
  ⟨"c1", "d1", ['x'], [(1 : ℚ)], none, 0, 1⟩

def wChunk2 : DocumentChunk :=
  ⟨"c2", "d1", ['y'], [(1 : ℚ)], none, 0, 1⟩

def wChunk3 : DocumentChunk :=
  ⟨"c3", "d2", ['z'], [(1 : ℚ)], none, 0, 1⟩

theorem mapSimilarities_wChunk12 :
    mapSimilarities (fun x => x) [(1 : ℚ)] [wChunk1, wChunk2] =
      .ok [(wChunk1, 1), (wChunk2, 1)] := by
  simp [mapSimilarities, cosineSimilarity, wChunk1, wChunk2]

theorem mapSimilarities_wChunk3 :
    mapSimilarities (fun x => x) [(1 : ℚ)] [wChunk3] = .ok [(wChunk3, 1)] := by
  simp [mapSimilarities, cosineSimilarity, wChunk3]

/-- Witness for C6 at two concrete equal-similarity candidates. -/
theorem searchSimilarChunks_ranking_C6_witness :
    mapSimilarities (fun x => x) [(1 : ℚ)] [wChunk1, wChunk2] =
        .ok [(wChunk1, 1), (wChunk2, 1)] ∧
      (∃ res, searchSimilarChunks (fun _ => [(1 : ℚ)]) (fun x => x) ['q']
            [wChunk1, wChunk2] 2 = .ok res ∧
        res.Pairwise (fun x y => y.2 ≤ x.2) ∧
        ([wChunk1, wChunk2].length ≤ 2 →
          res.Perm [(wChunk1, 1), (wChunk2, 1)] ∧
          ∀ a b : DocumentChunk × ℚ, List.Sublist [a, b] [(wChunk1, 1), (wChunk2, 1)] →
            a.2 = b.2 → List.Sublist [a, b] res)) :=
  ⟨mapSimilarities_wChunk12,
    searchSimilarChunks_ranking_C6 _ _ _ _ _ _ mapSimilarities_wChunk12⟩

/-- C9: for a non-empty candidate list whose similarity computations succeed,
`searchSimilarChunks` returns exactly `min topK (number of candidates)` results:
no candidate is excluded inside the search itself, whatever its similarity value;
threshold filtering happens only in the caller. -/
theorem searchSimilarChunks_count_C9 (embed : List Char → List ℚ) (sqrt : ℚ → ℚ)
    (q : List Char) (chunks : List DocumentChunk) (k : Nat)
    (pairs : List (DocumentChunk × ℚ))
    (h : mapSimilarities sqrt (embed q) chunks = .ok pairs)
    (_hne : chunks ≠ []) :
    ∃ res, searchSimilarChunks embed sqrt q chunks k = .ok res ∧
      res.length = min k chunks.length := by
  refine ⟨_, searchSimilarChunks_eq embed sqrt q chunks k pairs h, ?_⟩
  rw [List.length_take, List.length_mergeSort,
    mapSimilarities_length sqrt (embed q) chunks pairs h]

/-- Witness for C9 at one concrete candidate and `topK = 5`. -/
theorem searchSimilarChunks_count_C9_witness :
    mapSimilarities (fun x => x) [(1 : ℚ)] [wChunk3] = .ok [(wChunk3, 1)] ∧
      ([wChunk3] : List DocumentChunk) ≠ [] ∧
      (∃ res, searchSimilarChunks (fun _ => [(1 : ℚ)]) (fun x => x) ['q']
            [wChunk3] 5 = .ok res ∧
        res.length = min 5 ([wChunk3] : List DocumentChunk).length) :=
  ⟨mapSimilarities_wChunk3, by simp,
    searchSimilarChunks_count_C9 _ _ _ _ _ _ mapSimilarities_wChunk3 (by simp)⟩

/-! ### Retrieval orchestrator: ingestion (source: `processDocument`, lines 116-144)

`processDocument` chunks the document text, reports progress `0`, then embeds the
chunks in order, reporting `(i + 1) / n` after the `i`-th chunk.  The model returns
the built chunk records together with the ordered list of progress values passed to
`onProgress`; the chunk-id generator (source `generateUUID`) and the embedding
backend are opaque parameters. -/

/-- The embedding loop of `processDocument` (source lines 127-141), started at chunk
index `i` with `n` total chunks: returns the built records and the emitted progress
fractions, in order. -/
def processLoop (embed : List Char → List ℚ) (genId : Nat → String)
    (docId : String) (n : Nat) :
    List TextChunk → Nat → List DocumentChunk × List ℚ
  | [], _ => ([], [])
  | tc :: tcs, i =>
    let chunk : DocumentChunk :=
      ⟨genId i, docId, tc.content, embed tc.content, none, tc.startIndex, tc.endIndex⟩
    let rest := processLoop embed genId docId n tcs (i + 1)
    (chunk :: rest.1, (((i : ℚ) + 1) / (n : ℚ)) :: rest.2)

/-- Source `processDocument`: run the chunker, emit progress `0`, then embed each
chunk sequentially, emitting `(i + 1) / n` after each.  `none` when the chunker's
loop does not finish within the fuel. -/
def processDocument (embed : List Char → List ℚ) (genId : Nat → String)
    (fuel : Nat) (doc : Document) : Option (List DocumentChunk × List ℚ) :=
  match chunkText fuel doc.content with
  | none => none
  | some textChunks =>
    let r := processLoop embed genId doc.id textChunks.length textChunks 0
    some (r.1, 0 :: r.2)

theorem processLoop_fst_length (embed : List Char → List ℚ) (genId : Nat → String)
    (docId : String) (n : Nat) :
    ∀ (tcs : List TextChunk) (i : Nat),
      (processLoop embed genId docId n tcs i).1.length = tcs.length
  | [], _ => rfl
  | _ :: tcs, i => by
    unfold processLoop
    simp [processLoop_fst_length embed genId docId n tcs (i + 1)]

theorem processLoop_snd (embed : List Char → List ℚ) (genId : Nat → String)
    (docId : String) (n : Nat) :
    ∀ (tcs : List TextChunk) (i : Nat),
      (processLoop embed genId docId n tcs i).2 =
        (List.range tcs.length).map (fun j => (((i + j : ℕ) : ℚ) + 1) / (n : ℚ))
  | [], _ => rfl
  | tc :: tcs, i => by
    have ih := processLoop_snd embed genId docId n tcs (i + 1)
    unfold processLoop
    simp only
    rw [ih, List.length_cons, List.range_succ_eq_map, List.map_cons, List.map_map]
    congr 1
    apply List.map_congr_left
    intro j _
    simp only [Function.comp_apply]
    push_cast
    ring

/-- C8: whenever ingestion completes with `n ≥ 1` chunks, the emitted progress
sequence is exactly `0` (before embedding starts) followed by `(i + 1) / n` after
each chunk; it is monotonically non-decreasing and ends at `1`. -/
theorem processDocument_progress_C8 (embed : List Char → List ℚ) (genId : Nat → String)
    (fuel : Nat) (doc : Document) (chunks : List DocumentChunk) (trace : List ℚ)
    (h : processDocument embed genId fuel doc = some (chunks, trace))
    (hn : 1 ≤ chunks.length) :
    trace = 0 :: (List.range chunks.length).map
        (fun i : ℕ => ((i : ℚ) + 1) / (chunks.length : ℚ)) ∧
      trace.head? = some 0 ∧
      trace.Pairwise (· ≤ ·) ∧
      trace.getLast? = some 1 := by
  unfold processDocument at h
  rcases hct : chunkText fuel doc.content with _ | tcs
  · rw [hct] at h
    exact absurd h (by simp)
  · rw [hct] at h
    simp only [Option.some.injEq, Prod.mk.injEq] at h
    obtain ⟨hchunks, htrace⟩ := h
    have hlen : chunks.length = tcs.length := by
      rw [← hchunks, processLoop_fst_length]
    have hmap : (List.range tcs.length).map
        (fun j => (((0 + j : ℕ) : ℚ) + 1) / ((tcs.length : ℕ) : ℚ)) =
        (List.range tcs.length).map
          (fun j : ℕ => ((j : ℚ) + 1) / ((tcs.length : ℕ) : ℚ)) :=
      List.map_congr_left (fun j _ => by rw [Nat.zero_add])
    have htr : trace = 0 :: (List.range tcs.length).map
        (fun j : ℕ => ((j : ℚ) + 1) / ((tcs.length : ℕ) : ℚ)) := by
      rw [← htrace, processLoop_snd, hmap]
    have hn' : 0 < tcs.length := by omega
    refine ⟨?_, ?_, ?_, ?_⟩
    · rw [hlen, htr]
    · rw [htr]
      rfl
    · rw [htr, List.pairwise_cons]
      constructor
      · intro x hx
        rw [List.mem_map] at hx
        obtain ⟨j, _, rfl⟩ := hx
        positivity
      · refine (List.pairwise_lt_range _).map _ ?_
        intro a b hab
        gcongr
    · obtain ⟨m, hm⟩ : ∃ m, tcs.length = m + 1 := ⟨tcs.length - 1, by omega⟩
      rw [htr, hm, List.range_succ, List.map_append, List.map_singleton,
        ← List.cons_append, List.getLast?_concat]
      congr 1
      push_cast
      exact div_self (by positivity)

/-- Concrete document and derived chunk record used in closed witnesses. -/
def wDoc : Document :=
  ⟨"d1", "doc", "text", 2, ['h', 'i'], "2024", 0⟩

def wPChunk : DocumentChunk :=
  ⟨"c0", "d1", ['h', 'i'], [], none, 0, 2⟩

theorem processDocument_wDoc :
    processDocument (fun _ => []) (fun _ => "c0") 0 wDoc =
      some ([wPChunk], [0, 1]) := by
  unfold processDocument
  rw [show wDoc.content = ['h', 'i'] from rfl, chunkText_of_le 0 ['h', 'i'] (by decide)]
  simp [processLoop, wDoc, wPChunk]

/-- Witness for C8 at a concrete two-character document yielding one chunk. -/
theorem processDocument_progress_C8_witness :
    processDocument (fun _ => []) (fun _ => "c0") 0 wDoc = some ([wPChunk], [0, 1]) ∧
      1 ≤ ([wPChunk] : List DocumentChunk).length ∧
      (([0, 1] : List ℚ) = 0 :: (List.range ([wPChunk] : List DocumentChunk).length).map
          (fun i : ℕ => ((i : ℚ) + 1) / (([wPChunk] : List DocumentChunk).length : ℚ)) ∧
        ([0, 1] : List ℚ).head? = some 0 ∧
        ([0, 1] : List ℚ).Pairwise (· ≤ ·) ∧
        ([0, 1] : List ℚ).getLast? = some 1) :=
  ⟨processDocument_wDoc, by decide,
    processDocument_progress_C8 _ _ _ _ _ _ processDocument_wDoc (by decide)⟩

/-! ### Document store (source: `rag-db`, IndexedDB collections `documents`, `chunks`)

The persisted state is modelled as the two record collections; each IndexedDB
transaction of the source is one atomic state transition of the model. -/

/-- Persistent state: the two object stores of the `rag-database`. -/
structure RAGDatabase where
  documents : List Document
  chunks : List DocumentChunk
deriving Repr, DecidableEq

/-- Source `getDocumentById`: `db.get('documents', id)`, `undefined` when absent. -/
def getDocumentById (db : RAGDatabase) (id : String) : Option Document :=
  db.documents.find? (fun d => d.id == id)

/-- Source `getChunksByDocumentId`: `db.getAllFromIndex('chunks', 'by-document', id)`. -/
def getChunksByDocumentId (db : RAGDatabase) (documentId : String) : List DocumentChunk :=
  db.chunks.filter (fun c => c.documentId == documentId)

/-- The chunk-deletion loop of `deleteDocument` (source lines 106-109): delete the
records with the collected primary keys, one key at a time. -/
def deleteChunkKeys (chunks : List DocumentChunk) : List String → List DocumentChunk
  | [] => chunks
  | key :: keys => deleteChunkKeys (chunks.filter (fun c => c.id != key)) keys

/-- Source `deleteDocument` (lines 98-112): inside a single readwrite transaction over
both stores, delete the document record with key `id`, collect the keys of the chunks
whose `documentId` equals `id` (via the `by-document` index), and delete each of them.
The enclosing transaction makes the whole operation one atomic state transition; an
IndexedDB `delete` succeeds whether or not a record with the key exists. -/
def deleteDocument (db : RAGDatabase) (id : String) : RAGDatabase :=
  ⟨db.documents.filter (fun d => d.id != id),
    deleteChunkKeys db.chunks
      ((db.chunks.filter (fun c => c.documentId == id)).map (fun c => c.id))⟩

theorem mem_deleteChunkKeys :
    ∀ (keys : List String) (chunks : List DocumentChunk) (c : DocumentChunk),
      c ∈ deleteChunkKeys chunks keys → c ∈ chunks ∧ c.id ∉ keys
  | [], _, c, h => ⟨h, by simp⟩
  | key :: keys, chunks, c, h => by
    obtain ⟨hmem, hnot⟩ := mem_deleteChunkKeys keys _ c h
    rw [List.mem_filter] at hmem
    refine ⟨hmem.1, ?_⟩
    rw [List.mem_cons]
    rintro (heq | hin)
    · have := hmem.2
      rw [heq] at this
      simp at this
    · exact hnot hin

/-- C7: after `deleteDocument id` completes, `getDocument id` is absent and
`getChunksForDocument id` is empty; the document and all its chunks are removed in
the one atomic transition that models the source's single transaction, so no
intermediate state is observable. -/
theorem deleteDocument_cascade_C7 (db : RAGDatabase) (id : String) :
    getDocumentById (deleteDocument db id) id = none ∧
      getChunksByDocumentId (deleteDocument db id) id = [] := by
  constructor
  · rw [getDocumentById, List.find?_eq_none]
    intro d hd
    simp only [deleteDocument, List.mem_filter] at hd
    simpa using hd.2
  · rw [getChunksByDocumentId, List.filter_eq_nil_iff]
    intro c hc heq
    obtain ⟨hmem, hnot⟩ := mem_deleteChunkKeys _ _ _ hc
    apply hnot
    rw [List.mem_map]
    exact ⟨c, List.mem_filter.mpr ⟨hmem, heq⟩, rfl⟩

/-- C10: deleting an identifier that matches no stored document and no stored chunk
succeeds (the operation is total) and leaves both collections unchanged. -/
theorem deleteDocument_missing_C10 (db : RAGDatabase) (id : String)
    (hd : ∀ d ∈ db.documents, d.id ≠ id)
    (hc : ∀ c ∈ db.chunks, c.documentId ≠ id) :
    deleteDocument db id = db := by
  unfold deleteDocument
  have h1 : db.documents.filter (fun d => d.id != id) = db.documents :=
    List.filter_eq_self.mpr (fun d hdm => by simpa using hd d hdm)
  have h2 : db.chunks.filter (fun c => c.documentId == id) = [] :=
    List.filter_eq_nil_iff.mpr (fun c hcm => by simpa using hc c hcm)
  rw [h1, h2]
  rfl

/-- Witness for C10 at a concrete one-document store and an unused identifier. -/
theorem deleteDocument_missing_C10_witness :
    (∀ d ∈ (⟨[wDoc], [wPChunk]⟩ : RAGDatabase).documents, d.id ≠ "zzz") ∧
      (∀ c ∈ (⟨[wDoc], [wPChunk]⟩ : RAGDatabase).chunks, c.documentId ≠ "zzz") ∧
      deleteDocument ⟨[wDoc], [wPChunk]⟩ "zzz" = ⟨[wDoc], [wPChunk]⟩ :=
  ⟨by decide, by decide,
    deleteDocument_missing_C10 ⟨[wDoc], [wPChunk]⟩ "zzz" (by decide) (by decide)⟩

